import Mathlib

/-!
Verification of the personal finance tracker (`casinillo_mpft_8.py`,
`finance/summary.py`).

The Python code is shallowly embedded:
* Python floats are modelled as exact rationals (`ℚ`); every amount the
  program's claims exercise is a small decimal, where float arithmetic is
  exact.
* JSON / dynamically typed Python values are modelled by `JVal`
  (string, number, or `None`); a Python `dict` produced or consumed by
  `to_dict` / `from_dict` is modelled by `RecordDict`, whose `Option` fields
  record whether each of the five keys the code touches is present.
* Python exceptions (`KeyError`, `TypeError`, `ValueError`) are modelled by
  `Except PyErr`.
* File I/O is modelled at the parse boundary: `load_data` receives
  `Option DataFile`, `none` standing for a missing backing file.
-/

/-- A dynamically typed Python/JSON value as used by this program:
a string, a number (float modelled as `ℚ`), or `None`. -/
inductive JVal where
  | str (s : String)
  | num (q : ℚ)
  | null
deriving DecidableEq, Repr

/-- Python exceptions raised by the embedded fragments. -/
inductive PyErr where
  | keyError
  | typeError
  | valueError
deriving DecidableEq, Repr

/-- A calendar date, as `datetime.date`: year, month, day. -/
structure Date where
  year : Nat
  month : Nat
  day : Nat
deriving DecidableEq, Repr

/-- Leap-year test of the Gregorian calendar (`calendar.isleap`). -/
def isLeap (y : Nat) : Bool :=
  (y % 4 = 0 && y % 100 ≠ 0) || y % 400 = 0

/-- Number of days of month `m` of year `y`. -/
def daysInMonth (y m : Nat) : Nat :=
  if m = 2 then (if isLeap y then 29 else 28)
  else if m = 4 ∨ m = 6 ∨ m = 9 ∨ m = 11 then 30
  else 31

/-- The dates `datetime.date` accepts: year 1..9999, month 1..12,
day 1..days-in-month. -/
def validDate (d : Date) : Bool :=
  1 ≤ d.year && d.year ≤ 9999 && 1 ≤ d.month && d.month ≤ 12 &&
    1 ≤ d.day && d.day ≤ daysInMonth d.year d.month

/-- The character of a decimal digit `n < 10`. -/
def digitChar (n : Nat) : Char := Char.ofNat (48 + n)

/-- The value of a decimal digit character, `none` for a non-digit. -/
def digitVal (c : Char) : Option Nat :=
  if 48 ≤ c.toNat ∧ c.toNat ≤ 57 then some (c.toNat - 48) else none

/-- `datetime.date.isoformat`: the `YYYY-MM-DD` rendering, as characters. -/
def isoformatChars (d : Date) : List Char :=
  [digitChar (d.year / 1000), digitChar (d.year / 100 % 10),
   digitChar (d.year / 10 % 10), digitChar (d.year % 10), '-',
   digitChar (d.month / 10), digitChar (d.month % 10), '-',
   digitChar (d.day / 10), digitChar (d.day % 10)]

/-- `datetime.date.isoformat` as a string. -/
def isoformat (d : Date) : String := String.mk (isoformatChars d)

/-- `datetime.date.fromisoformat` on the character list: parses the canonical
`YYYY-MM-DD` form and checks calendar validity; `none` models the
`ValueError` raised on any other input. -/
def fromisoformatChars : List Char → Option Date
  | [y1, y2, y3, y4, h1, m1, m2, h2, d1, d2] =>
    if h1 = '-' ∧ h2 = '-' then
      match digitVal y1, digitVal y2, digitVal y3, digitVal y4,
            digitVal m1, digitVal m2, digitVal d1, digitVal d2 with
      | some a, some b, some c, some d, some e, some f, some g, some h =>
        let dt : Date := ⟨1000 * a + 100 * b + 10 * c + d, 10 * e + f, 10 * g + h⟩
        if validDate dt then some dt else none
      | _, _, _, _, _, _, _, _ => none
    else none
  | _ => none

/-- `datetime.date.fromisoformat` on a string. -/
def fromisoformat (s : String) : Option Date := fromisoformatChars s.data

theorem digitVal_digitChar {n : Nat} (h : n ≤ 9) : digitVal (digitChar n) = some n := by
  interval_cases n <;> rfl

theorem daysInMonth_le (y m : Nat) : daysInMonth y m ≤ 31 := by
  unfold daysInMonth
  split
  · split <;> omega
  · split <;> omega

/-- Parsing inverts rendering on every valid date. -/
theorem fromisoformat_isoformat (d : Date) (h : validDate d) :
    fromisoformat (isoformat d) = some d := by
  obtain ⟨y, m, dd⟩ := d
  simp only [validDate, Bool.and_eq_true, decide_eq_true_eq] at h
  obtain ⟨⟨⟨⟨⟨h1, h2⟩, h3⟩, h4⟩, h5⟩, h6⟩ := h
  have hy1 : y / 1000 ≤ 9 := by omega
  have hy2 : y / 100 % 10 ≤ 9 := by omega
  have hy3 : y / 10 % 10 ≤ 9 := by omega
  have hy4 : y % 10 ≤ 9 := by omega
  have hm1 : m / 10 ≤ 9 := by omega
  have hm2 : m % 10 ≤ 9 := by omega
  have hdm : daysInMonth y m ≤ 31 := daysInMonth_le y m
  have hd1 : dd / 10 ≤ 9 := by omega
  have hd2 : dd % 10 ≤ 9 := by omega
  have ey : 1000 * (y / 1000) + 100 * (y / 100 % 10) + 10 * (y / 10 % 10) + y % 10 = y := by
    omega
  have em : 10 * (m / 10) + m % 10 = m := by omega
  have ed : 10 * (dd / 10) + dd % 10 = dd := by omega
  simp only [fromisoformat, isoformat, isoformatChars, fromisoformatChars,
    digitVal_digitChar hy1, digitVal_digitChar hy2, digitVal_digitChar hy3,
    digitVal_digitChar hy4, digitVal_digitChar hm1, digitVal_digitChar hm2,
    digitVal_digitChar hd1, digitVal_digitChar hd2, and_self, if_true]
  rw [ey, em, ed]
  simp only [validDate, decide_eq_true_eq]
  simp [h1, h2, h3, h4, h5, h6]

/-- `FinancialRecord` (class `FinancialRecord` of `casinillo_mpft_8.py`).
Python does not enforce the annotated field types, so every field other than
`date` holds an arbitrary dynamic value; `date` is typed because every record
the repository constructs or deserializes carries a real `datetime.date`
(`to_dict` would fail otherwise). -/
structure FinancialRecord where
  date : Date
  description : JVal
  amount : JVal
  due_date : JVal
  record_type : JVal
deriving DecidableEq, Repr

/-- A Python dict holding (some of) the five keys `to_dict` writes and
`from_dict` reads; `none` means the key is absent. -/
structure RecordDict where
  date : Option JVal
  description : Option JVal
  amount : Option JVal
  due_date : Option JVal
  record_type : Option JVal
deriving DecidableEq, Repr

/-- `FinancialRecord.to_dict`: serialize the record; the date becomes its
ISO-8601 string, the remaining fields are stored as they are (Python stores
`None` under `due_date` when there is no due date, modelled by `JVal.null`). -/
def FinancialRecord.to_dict (r : FinancialRecord) : RecordDict :=
  { date := some (.str (isoformat r.date))
    description := some r.description
    amount := some r.amount
    due_date := some r.due_date
    record_type := some r.record_type }

/-- `FinancialRecord.from_dict`: `data['date']` raises `KeyError` when absent,
`date.fromisoformat` raises `TypeError` on a non-string and `ValueError` on a
non-ISO string; `data['description']` and `data['amount']` raise `KeyError`
when absent but are not type-checked; `data.get('due_date')` yields `None`
when absent and `data.get('record_type', 'expense')` defaults when absent. -/
def FinancialRecord.from_dict (data : RecordDict) : Except PyErr FinancialRecord :=
  match data.date with
  | none => .error .keyError
  | some (.num _) => .error .typeError
  | some .null => .error .typeError
  | some (.str s) =>
    match fromisoformat s with
    | none => .error .valueError
    | some dt =>
      match data.description with
      | none => .error .keyError
      | some desc =>
        match data.amount with
        | none => .error .keyError
        | some amt =>
          .ok ⟨dt, desc, amt, data.due_date.getD .null,
               data.record_type.getD (.str "expense")⟩

/-- A valid record in the sense of the data model: a calendar date, a
non-empty string description, a positive numeric amount, an optional string
due date and a record type of `"expense"` or `"income"`. -/
def validRecord (r : FinancialRecord) : Prop :=
  validDate r.date = true ∧
  (∃ s : String, r.description = .str s ∧ s ≠ "") ∧
  (∃ q : ℚ, r.amount = .num q ∧ 0 < q) ∧
  (r.due_date = .null ∨ ∃ s : String, r.due_date = .str s) ∧
  (r.record_type = .str "expense" ∨ r.record_type = .str "income")

/-- The in-memory state of `FinanceTracker`: the active records (`plans`)
and the soft-deleted ones (`trash_bin`).  Persistence (`save_data`) rewrites
the backing file after each mutation and does not change this state. -/
structure FinanceTracker where
  plans : List FinancialRecord
  trash_bin : List FinancialRecord
deriving DecidableEq, Repr

/-- Outcome of one attempt of the interactive delete/restore loops:
the record was moved, the user cancelled with `0`, or the 1-based index was
out of range (the code prints "Invalid plan number" and re-prompts,
leaving the state unchanged). -/
inductive OpOutcome where
  | moved (r : FinancialRecord)
  | cancelled
  | invalidIndex
deriving DecidableEq, Repr

/-- `FinanceTracker.delete_plan`, one iteration of its loop on the 1-based
index `i` (the code computes `index = i - 1`; `index == -1` cancels;
`0 <= index < len(plans)` pops `plans[index]` and appends it to `trash_bin`;
anything else is an invalid selection that changes nothing). -/
def FinanceTracker.delete_plan (t : FinanceTracker) (i : Int) :
    OpOutcome × FinanceTracker :=
  if i = 0 then (.cancelled, t)
  else if h : 0 ≤ i - 1 ∧ (i - 1).toNat < t.plans.length then
    let deleted := t.plans.get ⟨(i - 1).toNat, h.2⟩
    (.moved deleted, ⟨t.plans.eraseIdx (i - 1).toNat, t.trash_bin ++ [deleted]⟩)
  else (.invalidIndex, t)

/-- `FinanceTracker.restore_specific_plan`, one iteration of its loop on the
1-based index `i`: pops `trash_bin[i-1]` and appends it to `plans`. -/
def FinanceTracker.restore_specific_plan (t : FinanceTracker) (i : Int) :
    OpOutcome × FinanceTracker :=
  if i = 0 then (.cancelled, t)
  else if h : 0 ≤ i - 1 ∧ (i - 1).toNat < t.trash_bin.length then
    let restored := t.trash_bin.get ⟨(i - 1).toNat, h.2⟩
    (.moved restored, ⟨t.plans ++ [restored], t.trash_bin.eraseIdx (i - 1).toNat⟩)
  else (.invalidIndex, t)

/-- Choice `'2'` of `FinanceTracker.view_trash_bin`: extend `plans` with the
whole `trash_bin` (in trash order) and clear the trash. -/
def FinanceTracker.restore_all (t : FinanceTracker) : FinanceTracker :=
  ⟨t.plans ++ t.trash_bin, []⟩

/-- The parsed content of the backing JSON file: the `plans` and `trash_bin`
arrays (each defaulting to `[]` when its key is absent, via `data.get`). -/
structure DataFile where
  plans : List RecordDict
  trash_bin : List RecordDict
deriving DecidableEq, Repr

/-- `FinanceTracker.load_data`, modelled at the parse boundary: `none` is a
missing backing file (`os.path.exists` false), in which case nothing is read
and the state is left as it is.  A record that fails `from_dict` aborts the
corresponding list comprehension; the `except` clause swallows the error, so
the fields assigned before the failure keep their new values. -/
def FinanceTracker.load_data (contents : Option DataFile) (t : FinanceTracker) :
    FinanceTracker :=
  match contents with
  | none => t
  | some d =>
    match d.plans.mapM FinancialRecord.from_dict with
    | .error _ => t
    | .ok ps =>
      match d.trash_bin.mapM FinancialRecord.from_dict with
      | .error _ => { t with plans := ps }
      | .ok ts => ⟨ps, ts⟩

/-- `FinanceTracker.__init__`: start with empty `plans` and `trash_bin`,
then `load_data`. -/
def FinanceTracker.init (contents : Option DataFile) : FinanceTracker :=
  FinanceTracker.load_data contents ⟨[], []⟩

/-- The result dict of `FinanceTracker.calculate_balance`. -/
structure BalanceReport where
  income : ℚ
  expenses : ℚ
  net_balance : ℚ
deriving DecidableEq, Repr

/-- Python `sum` over a list of dynamic values with accumulator `acc`:
adds numbers, raises `TypeError` on any non-number. -/
def pySum : List JVal → ℚ → Except PyErr ℚ
  | [], acc => .ok acc
  | .num q :: rest, acc => pySum rest (acc + q)
  | .str _ :: _, _ => .error .typeError
  | .null :: _, _ => .error .typeError

/-- `FinanceTracker.calculate_balance`: sum the amounts of the `"income"`
records, then of the `"expense"` records, and report both with their
difference as `net_balance`.  Records of any other kind enter neither sum. -/
def FinanceTracker.calculate_balance (t : FinanceTracker) :
    Except PyErr BalanceReport :=
  match pySum ((t.plans.filter
      (fun p => p.record_type = JVal.str "income")).map FinancialRecord.amount) 0 with
  | .error e => .error e
  | .ok total_income =>
    match pySum ((t.plans.filter
        (fun p => p.record_type = JVal.str "expense")).map FinancialRecord.amount) 0 with
    | .error e => .error e
    | .ok total_expenses =>
      .ok ⟨total_income, total_expenses, total_income - total_expenses⟩

/-- Python truthiness of a dynamic value (`if plan.due_date:`):
`None` and the empty string are falsy, a number is truthy unless zero. -/
def truthy : JVal → Bool
  | .null => false
  | .str s => s ≠ ""
  | .num q => q ≠ 0

/-- The sort key `lambda x: x.due_date` of `view_upcoming_due_dates`.
Python's `sorted` compares the raw values and would raise `TypeError` on
mixed types; every record this program stores has a string or `None` due
date and `None` never passes the filter, so the key is the string
(non-string cases are given a dummy key and are excluded by hypothesis in
the theorems below). -/
def dueKey (r : FinancialRecord) : String :=
  match r.due_date with
  | .str s => s
  | _ => ""

/-- The filter of `view_upcoming_due_dates`:
`plan.record_type == "expense" and plan.due_date`. -/
def upcomingFilter (p : FinancialRecord) : Bool :=
  decide (p.record_type = JVal.str "expense") && truthy p.due_date

/-- The comparison `sorted(..., key=lambda x: x.due_date)` sorts by:
ascending due-date key. -/
def dueLe (a b : FinancialRecord) : Bool := decide (dueKey a ≤ dueKey b)

/-- `FinanceTracker.view_upcoming_due_dates`: keep the `"expense"` records
with a truthy `due_date` and sort them by `due_date` ascending.  Python's
`sorted` is a stable mergesort; it is modelled by `List.mergeSort`, which is
likewise stable. -/
def FinanceTracker.view_upcoming_due_dates (t : FinanceTracker) :
    List FinancialRecord :=
  (t.plans.filter upcomingFilter).mergeSort dueLe

/-- All-digit test for a character list. -/
def allDigits (cs : List Char) : Bool := cs.all (fun c => (digitVal c).isSome)

/-- Numeric value of a digit string. -/
def natOfDigits (cs : List Char) : Nat :=
  cs.foldl (fun a c => 10 * a + ((digitVal c).getD 0)) 0

/-- Magnitude part of `float(s)` on a plain decimal literal
`digits [. digits]` (at least one digit overall). -/
def pyFloatMag (cs : List Char) : Option ℚ :=
  let whole := cs.takeWhile (fun c => c ≠ '.')
  match cs.dropWhile (fun c => c ≠ '.') with
  | [] => if whole ≠ [] ∧ allDigits whole then some (natOfDigits whole) else none
  | _ :: frac =>
    if (whole ≠ [] ∨ frac ≠ []) ∧ allDigits whole ∧ allDigits frac ∧
        frac.all (fun c => c ≠ '.') then
      some ((natOfDigits whole : ℚ) + (natOfDigits frac : ℚ) / (10 ^ frac.length : ℚ))
    else none

/-- `float(r.get('amount', 0))` of `finance/summary.py`: an absent key
defaults to `0`, a number converts to itself, `None` raises `TypeError`, and
a string is parsed as a decimal literal or raises `ValueError`.  (Python's
`float` also accepts exponents, `inf`/`nan`, underscores and surrounding
whitespace; no amount this repository stores is such a string, so those
forms are not modelled.) -/
def pyFloat : Option JVal → Except PyErr ℚ
  | none => .ok 0
  | some (.num q) => .ok q
  | some .null => .error .typeError
  | some (.str s) =>
    match s.data with
    | '-' :: rest =>
      match pyFloatMag rest with
      | some q => .ok (-q)
      | none => .error .valueError
    | '+' :: rest =>
      match pyFloatMag rest with
      | some q => .ok q
      | none => .error .valueError
    | cs =>
      match pyFloatMag cs with
      | some q => .ok q
      | none => .error .valueError

/-- The loop of `net_total` with accumulator `net`: each record adds its
amount when its `record_type` is `'income'` and subtracts it otherwise
(also when the key is absent or holds any other value). -/
def net_total_go (net : ℚ) : List RecordDict → Except PyErr ℚ
  | [] => .ok net
  | r :: rs =>
    match pyFloat r.amount with
    | .error e => .error e
    | .ok amt =>
      if r.record_type = some (JVal.str "income") then net_total_go (net + amt) rs
      else net_total_go (net - amt) rs

/-- `net_total` of `finance/summary.py`. -/
def net_total (records : List RecordDict) : Except PyErr ℚ :=
  net_total_go 0 records

/-- A Python dict from kinds to sums, as an insertion-ordered association
list (Python dicts preserve insertion order). -/
abbrev TotalsDict := List (JVal × ℚ)

/-- `totals.get(t, 0.0)` without the default: lookup of the first (unique)
binding of `k`. -/
def dictGet : TotalsDict → JVal → Option ℚ
  | [], _ => none
  | (k', v) :: rest, k => if k' = k then some v else dictGet rest k

/-- `totals[t] = v`: update the existing binding in place, or append a new
binding at the end — exactly Python's dict assignment order behaviour. -/
def dictSet : TotalsDict → JVal → ℚ → TotalsDict
  | [], k, v => [(k, v)]
  | (k', v') :: rest, k, v =>
    if k' = k then (k', v) :: rest else (k', v') :: dictSet rest k v

/-- `r.get('record_type', 'expense')`: the effective kind of a record
mapping — its `record_type` value, or `'expense'` when the key is absent. -/
def ekind (r : RecordDict) : JVal := r.record_type.getD (.str "expense")

/-- The loop of `total_by_type` with accumulator `totals`: each record is
keyed by its effective kind and adds `float(r.get('amount', 0))` to that
key's total, which starts at `0.0` (`totals.get(t, 0.0)`). -/
def total_by_type_go (totals : TotalsDict) :
    List RecordDict → Except PyErr TotalsDict
  | [] => .ok totals
  | r :: rs =>
    match pyFloat r.amount with
    | .error e => .error e
    | .ok amt =>
      total_by_type_go (dictSet totals (ekind r) ((dictGet totals (ekind r)).getD 0 + amt)) rs

/-- `total_by_type` of `finance/summary.py`. -/
def total_by_type (records : List RecordDict) : Except PyErr TotalsDict :=
  total_by_type_go [] records

theorem eraseIdx_append_get_perm {α : Type} (l : List α) (i : Nat) (h : i < l.length) :
    List.Perm (l.eraseIdx i ++ [l.get ⟨i, h⟩]) l := by
  rw [List.eraseIdx_eq_take_drop_succ, List.append_assoc]
  refine (List.Perm.append_left _ List.perm_append_comm).trans ?g2
  rw [List.singleton_append, List.get_cons_drop, List.take_append_drop]

/-- Sample expense record used to instantiate the theorems below. -/
def recA : FinancialRecord :=
  ⟨⟨2024, 1, 1⟩, .str "groceries", .num 50, .null, .str "expense"⟩

/-- Sample income record used to instantiate the theorems below. -/
def recB : FinancialRecord :=
  ⟨⟨2024, 1, 2⟩, .str "salary", .num 500, .null, .str "income"⟩

/-- Sample tracker state with two active records and an empty trash. -/
def sampleTracker : FinanceTracker := ⟨[recA, recB], []⟩

/-- C1: for every valid record `r`, `from_dict (to_dict r)` succeeds and
returns a record equal to `r` in every field (date, description, amount,
due date and record type). -/
theorem from_dict_to_dict_roundtrip (r : FinancialRecord) (h : validRecord r) :
    FinancialRecord.from_dict (FinancialRecord.to_dict r) = .ok r := by
  obtain ⟨hd, -, -, -, -⟩ := h
  simp [FinancialRecord.to_dict, FinancialRecord.from_dict,
    fromisoformat_isoformat r.date hd]

/-- C1 witness: the round trip at a concrete valid record (a leap-day
expense with a due date). -/
theorem from_dict_to_dict_roundtrip_witness :
    FinancialRecord.from_dict (FinancialRecord.to_dict
        ⟨⟨2024, 2, 29⟩, .str "rent", .num 1200, .str "2024-03-01", .str "expense"⟩) =
      .ok ⟨⟨2024, 2, 29⟩, .str "rent", .num 1200, .str "2024-03-01", .str "expense"⟩ :=
  from_dict_to_dict_roundtrip _
    ⟨by decide, ⟨"rent", rfl, by decide⟩, ⟨1200, rfl, by norm_num⟩,
     Or.inr ⟨"2024-03-01", rfl⟩, Or.inl rfl⟩

/-- C7: a missing backing file is not an error: the tracker starts with
empty `plans` and empty `trash_bin`. -/
theorem init_missing_file_empty : FinanceTracker.init none = ⟨[], []⟩ := rfl

/-- C3 counterexample: with index `0`, `delete_plan` cancels — it does not
fail as an invalid (out-of-range) selection, though it does leave the state
unchanged. -/
theorem delete_zero_cancels_cex :
    sampleTracker.delete_plan 0 = (.cancelled, sampleTracker) ∧
      (sampleTracker.delete_plan 0).1 ≠ .invalidIndex := by
  constructor
  · rfl
  · decide

/-- C3 (amended): `delete_plan` with any index outside `1..len(plans)`
leaves both `plans` and `trash_bin` unchanged; index `0` cancels (by the
caller-level convention) while every other out-of-range index — negative or
greater than `len(plans)` — is rejected as an invalid selection. -/
theorem delete_out_of_range_no_mutation (t : FinanceTracker) (i : Int)
    (h : i ≤ 0 ∨ (t.plans.length : Int) < i) :
    t.delete_plan i = (if i = 0 then (.cancelled, t) else (.invalidIndex, t)) := by
  unfold FinanceTracker.delete_plan
  by_cases h0 : i = 0
  · rw [if_pos h0, if_pos h0]
  · have hcond : ¬ (0 ≤ i - 1 ∧ (i - 1).toNat < t.plans.length) := by
      rintro ⟨ha, hb⟩
      rcases h with h | h <;> omega
    rw [if_neg h0, dif_neg hcond, if_neg h0]

/-- C3 witness: deleting at index 3 of a 2-element store is rejected and
mutates nothing; deleting at index 0 cancels and mutates nothing. -/
theorem delete_out_of_range_no_mutation_witness :
    sampleTracker.delete_plan 3 = (.invalidIndex, sampleTracker) ∧
      sampleTracker.delete_plan 0 = (.cancelled, sampleTracker) := by
  have h3 := delete_out_of_range_no_mutation sampleTracker 3 (by right; decide)
  have h0 := delete_out_of_range_no_mutation sampleTracker 0 (by left; decide)
  refine ⟨?ha, ?hb⟩
  · simpa using h3
  · simpa using h0

/-- C2 counterexample: on a store whose active list is `[recA, recB]`,
`delete(1)` followed by `restore(len(trash))` yields active list
`[recB, recA]` — the same records, but not the pre-delete order. -/
theorem delete_restore_order_cex :
    (((sampleTracker.delete_plan 1).2).restore_specific_plan
        ((((sampleTracker.delete_plan 1).2).trash_bin.length : Int))).2.plans ≠
      sampleTracker.plans := by decide

/-- C2 (amended): `delete(i)` followed immediately by `restore(len(trash))`
restores the content of `active` — the result holds exactly the pre-delete
records (a permutation of them, namely the pre-delete list with the deleted
record moved to the end) — and leaves `trash` exactly as it was before the
delete; the pre-delete order is in general not restored. -/
theorem delete_then_restore_last (t : FinanceTracker) (i : Int)
    (h1 : 1 ≤ i) (h2 : i ≤ (t.plans.length : Int))
    (h3 : (i - 1).toNat < t.plans.length) :
    (((t.delete_plan i).2).restore_specific_plan
        ((((t.delete_plan i).2).trash_bin.length : Int))).2 =
      ⟨t.plans.eraseIdx (i - 1).toNat ++ [t.plans.get ⟨(i - 1).toNat, h3⟩],
       t.trash_bin⟩ ∧
    List.Perm (((t.delete_plan i).2).restore_specific_plan
        ((((t.delete_plan i).2).trash_bin.length : Int))).2.plans t.plans := by
  have hne : ¬ i = 0 := by omega
  have hcond : 0 ≤ i - 1 ∧ (i - 1).toNat < t.plans.length := ⟨by omega, h3⟩
  have e1 : t.delete_plan i =
      (.moved (t.plans.get ⟨(i - 1).toNat, h3⟩),
       ⟨t.plans.eraseIdx (i - 1).toNat,
        t.trash_bin ++ [t.plans.get ⟨(i - 1).toNat, h3⟩]⟩) := by
    unfold FinanceTracker.delete_plan
    rw [if_neg hne, dif_pos hcond]
  rw [e1]
  set r := t.plans.get ⟨(i - 1).toNat, h3⟩ with hr
  set E := t.plans.eraseIdx (i - 1).toNat with hE
  set T := t.trash_bin with hT
  have hlen : ((FinanceTracker.mk E (T ++ [r])).trash_bin.length : Int) =
      (T.length : Int) + 1 := by simp
  have hne2 : ¬ ((T.length : Int) + 1 = 0) := by omega
  have hcond2 : 0 ≤ (T.length : Int) + 1 - 1 ∧
      ((T.length : Int) + 1 - 1).toNat < (T ++ [r]).length := by
    constructor
    · omega
    · simp
  have hidx : ((T.length : Int) + 1 - 1).toNat = T.length := by omega
  have hget : (T ++ [r]).get ⟨((T.length : Int) + 1 - 1).toNat, hcond2.2⟩ = r := by
    simp only [List.get_eq_getElem]
    rw [List.getElem_concat_length _ _ _ hidx]
  have herase : (T ++ [r]).eraseIdx (((T.length : Int) + 1 - 1).toNat) = T := by
    rw [hidx, List.eraseIdx_append_of_length_le (Nat.le_refl _)]
    simp
  have e2 : (FinanceTracker.mk E (T ++ [r])).restore_specific_plan
      ((T.length : Int) + 1) = (.moved r, ⟨E ++ [r], T⟩) := by
    unfold FinanceTracker.restore_specific_plan
    rw [if_neg hne2, dif_pos hcond2]
    show (OpOutcome.moved ((T ++ [r]).get ⟨((T.length : Int) + 1 - 1).toNat, hcond2.2⟩),
      FinanceTracker.mk (E ++ [(T ++ [r]).get ⟨((T.length : Int) + 1 - 1).toNat, hcond2.2⟩])
        ((T ++ [r]).eraseIdx (((T.length : Int) + 1 - 1).toNat))) =
      (OpOutcome.moved r, FinanceTracker.mk (E ++ [r]) T)
    rw [hget, herase]
  rw [hlen, e2]
  exact ⟨rfl, eraseIdx_append_get_perm t.plans _ h3⟩

/-- C2 witness: the amended statement at the concrete two-record store,
deleting index 1. -/
theorem delete_then_restore_last_witness :
    (((sampleTracker.delete_plan 1).2).restore_specific_plan
        ((((sampleTracker.delete_plan 1).2).trash_bin.length : Int))).2 =
      ⟨[recB, recA], []⟩ := by
  have h := delete_then_restore_last sampleTracker 1 (by decide) (by decide) (by decide)
  simpa using h.1

/-- C9: each of `delete_plan` (valid index), `restore_specific_plan` (valid
index) and `restore_all` preserves the combined multiset of records held in
`plans` and `trash_bin` together: records are only moved between the two
collections, never created, duplicated or discarded. -/
theorem move_ops_preserve_records :
    (∀ (t : FinanceTracker) (i : Int), 1 ≤ i → i ≤ (t.plans.length : Int) →
      List.Perm ((t.delete_plan i).2.plans ++ (t.delete_plan i).2.trash_bin)
        (t.plans ++ t.trash_bin)) ∧
    (∀ (t : FinanceTracker) (j : Int), 1 ≤ j → j ≤ (t.trash_bin.length : Int) →
      List.Perm ((t.restore_specific_plan j).2.plans ++
        (t.restore_specific_plan j).2.trash_bin) (t.plans ++ t.trash_bin)) ∧
    (∀ t : FinanceTracker,
      List.Perm (t.restore_all.plans ++ t.restore_all.trash_bin)
        (t.plans ++ t.trash_bin)) := by
  refine ⟨?gd, ?gr, ?gra⟩
  case gd =>
    intro t i hi1 hi2
    have hi3 : (i - 1).toNat < t.plans.length := by omega
    have hine : ¬ i = 0 := by omega
    have hicond : 0 ≤ i - 1 ∧ (i - 1).toNat < t.plans.length := ⟨by omega, hi3⟩
    have ed : t.delete_plan i =
        (.moved (t.plans.get ⟨(i - 1).toNat, hi3⟩),
         ⟨t.plans.eraseIdx (i - 1).toNat,
          t.trash_bin ++ [t.plans.get ⟨(i - 1).toNat, hi3⟩]⟩) := by
      unfold FinanceTracker.delete_plan
      rw [if_neg hine, dif_pos hicond]
    rw [ed]
    refine List.Perm.trans (List.Perm.append_left _ List.perm_append_comm) ?gd2
    rw [← List.append_assoc]
    exact List.Perm.append_right _ (eraseIdx_append_get_perm t.plans _ hi3)
  case gr =>
    intro t j hj1 hj2
    have hj3 : (j - 1).toNat < t.trash_bin.length := by omega
    have hjne : ¬ j = 0 := by omega
    have hjcond : 0 ≤ j - 1 ∧ (j - 1).toNat < t.trash_bin.length := ⟨by omega, hj3⟩
    have er : t.restore_specific_plan j =
        (.moved (t.trash_bin.get ⟨(j - 1).toNat, hj3⟩),
         ⟨t.plans ++ [t.trash_bin.get ⟨(j - 1).toNat, hj3⟩],
          t.trash_bin.eraseIdx (j - 1).toNat⟩) := by
      unfold FinanceTracker.restore_specific_plan
      rw [if_neg hjne, dif_pos hjcond]
    rw [er]
    show List.Perm ((t.plans ++ [t.trash_bin.get ⟨(j - 1).toNat, hj3⟩]) ++
        t.trash_bin.eraseIdx (j - 1).toNat) (t.plans ++ t.trash_bin)
    rw [List.append_assoc]
    refine List.Perm.append_left _ ?gr2
    exact List.perm_append_comm.trans (eraseIdx_append_get_perm t.trash_bin _ hj3)
  case gra =>
    intro t
    simp [FinanceTracker.restore_all]

/-- C9 witness: the three preservation statements instantiated so that each
previously uncovered shape is exercised — a delete on a store whose trash is
empty, a restore on a store whose active list is empty, and `restore_all`
on the fully empty store. -/
theorem move_ops_preserve_records_witness :
    List.Perm (((FinanceTracker.mk [recA, recB] []).delete_plan 1).2.plans ++
        ((FinanceTracker.mk [recA, recB] []).delete_plan 1).2.trash_bin)
      ([recA, recB] ++ []) ∧
    List.Perm (((FinanceTracker.mk [] [recB]).restore_specific_plan 1).2.plans ++
        ((FinanceTracker.mk [] [recB]).restore_specific_plan 1).2.trash_bin)
      ([] ++ [recB]) ∧
    List.Perm ((FinanceTracker.mk [] []).restore_all.plans ++
        (FinanceTracker.mk [] []).restore_all.trash_bin) ([] ++ []) :=
  ⟨move_ops_preserve_records.1 ⟨[recA, recB], []⟩ 1 (by decide) (by decide),
   move_ops_preserve_records.2.1 ⟨[], [recB]⟩ 1 (by decide) (by decide),
   move_ops_preserve_records.2.2 ⟨[], []⟩⟩

/-- The numeric value of a record mapping's `amount` entry, used to state
the summation theorems: the amount when it is a number, `0` when the key is
absent (the `r.get('amount', 0)` default). -/
def numAmount (r : RecordDict) : ℚ :=
  match r.amount with
  | some (.num q) => q
  | _ => 0

/-- The numeric value of a record's `amount` field, used to state the
balance theorems: the amount when it is a number, else `0`. -/
def recNum (r : FinancialRecord) : ℚ :=
  match r.amount with
  | .num q => q
  | _ => 0

theorem pyFloat_numeric (r : RecordDict)
    (h : (∃ q : ℚ, r.amount = some (.num q)) ∨ r.amount = none) :
    pyFloat r.amount = .ok (numAmount r) := by
  rcases h with ⟨q, hq⟩ | hq <;> simp [hq, pyFloat, numAmount]

theorem net_total_go_spec (records : List RecordDict) (net : ℚ)
    (h : ∀ r ∈ records, (∃ q : ℚ, r.amount = some (.num q)) ∨ r.amount = none) :
    net_total_go net records = .ok (net + (records.map (fun r =>
      if r.record_type = some (JVal.str "income") then numAmount r
      else - numAmount r)).sum) := by
  induction records generalizing net with
  | nil => simp [net_total_go]
  | cons r rs ih =>
    have hamt := pyFloat_numeric r (h r (List.mem_cons_self r rs))
    have hrs := fun x hx => h x (List.mem_cons_of_mem r hx)
    simp only [net_total_go, hamt, List.map_cons, List.sum_cons]
    by_cases hk : r.record_type = some (JVal.str "income")
    · rw [if_pos hk, ih _ hrs, if_pos hk]
      congr 1
      ring
    · rw [if_neg hk, ih _ hrs, if_neg hk]
      congr 1
      ring

theorem net_total_numeric (records : List RecordDict)
    (h : ∀ r ∈ records, (∃ q : ℚ, r.amount = some (.num q)) ∨ r.amount = none) :
    net_total records = .ok ((records.map (fun r =>
      if r.record_type = some (JVal.str "income") then numAmount r
      else - numAmount r)).sum) := by
  rw [net_total, net_total_go_spec records 0 h, zero_add]

/-- C4: `net_total` adds the amount of each record whose kind is
`'income'` and subtracts the amount of every other record (also when the
kind is absent or malformed); `net_total [] = 0` and one income of `100`
with one expense of `40` nets to `60`. -/
theorem net_total_spec :
    (∀ (records : List RecordDict),
      (∀ r ∈ records, (∃ q : ℚ, r.amount = some (.num q)) ∨ r.amount = none) →
      net_total records = .ok ((records.map (fun r =>
        if r.record_type = some (JVal.str "income") then numAmount r
        else - numAmount r)).sum)) ∧
    net_total [] = .ok 0 ∧
    net_total [⟨none, none, some (.num 100), none, some (.str "income")⟩,
               ⟨none, none, some (.num 40), none, some (.str "expense")⟩] =
      .ok 60 := by
  refine ⟨fun records h => net_total_numeric records h, rfl, ?gex⟩
  simp [net_total, net_total_go, pyFloat]
  norm_num

/-- C4 witness: the general summation statement applied to a single record
of malformed kind (`None`), whose amount is subtracted. -/
theorem net_total_spec_witness :
    net_total [⟨none, none, some (.num 7), none, some JVal.null⟩] = .ok (-7) := by
  have h := net_total_spec.1 [⟨none, none, some (.num 7), none, some JVal.null⟩]
    (by intro r hr; simp at hr; subst hr; exact Or.inl ⟨7, rfl⟩)
  simpa [numAmount] using h

/-- C8 counterexample: a mapping whose `description` is a number and whose
`amount` is a non-numeric string — wrong types for both — deserializes
successfully (the fields are stored unchecked) instead of failing. -/
theorem from_dict_wrong_type_accepted_cex :
    FinancialRecord.from_dict ⟨some (.str "2024-01-01"), some (.num 5),
        some (.str "abc"), none, none⟩ =
      .ok ⟨⟨2024, 1, 1⟩, .num 5, .str "abc", .null, .str "expense"⟩ := by
  rfl

/-- C8 (amended): `from_dict` fails exactly when the `date` key is absent,
holds a non-string, or holds a string that is not a valid ISO-8601 date, or
when the `description` or `amount` key is absent; a present `description`
or `amount` of the wrong type is accepted unchecked.  On success a missing
`due_date` defaults to `None` and a missing `record_type` defaults to
`"expense"`. -/
theorem from_dict_error_characterization (d : RecordDict) :
    ((∃ e, FinancialRecord.from_dict d = .error e) ↔
      d.date = none ∨ (∃ q, d.date = some (.num q)) ∨ d.date = some .null ∨
        (∃ s, d.date = some (.str s) ∧ fromisoformat s = none) ∨
        d.description = none ∨ d.amount = none) ∧
    (∀ r, FinancialRecord.from_dict d = .ok r →
      (d.due_date = none → r.due_date = .null) ∧
      (d.record_type = none → r.record_type = .str "expense")) := by
  constructor
  · cases hdate : d.date with
    | none => simp [FinancialRecord.from_dict, hdate]
    | some v =>
      cases v with
      | num q => simp [FinancialRecord.from_dict, hdate]
      | null => simp [FinancialRecord.from_dict, hdate]
      | str s =>
        cases hiso : fromisoformat s with
        | none => simp [FinancialRecord.from_dict, hdate, hiso]
        | some dt =>
          cases hdesc : d.description with
          | none => simp [FinancialRecord.from_dict, hdate, hiso, hdesc]
          | some dv =>
            cases hamt : d.amount with
            | none => simp [FinancialRecord.from_dict, hdate, hiso, hdesc, hamt]
            | some av => simp [FinancialRecord.from_dict, hdate, hiso, hdesc, hamt]
  · intro r hr
    cases hdate : d.date with
    | none => simp [FinancialRecord.from_dict, hdate] at hr
    | some v =>
      cases v with
      | num q => simp [FinancialRecord.from_dict, hdate] at hr
      | null => simp [FinancialRecord.from_dict, hdate] at hr
      | str s =>
        cases hiso : fromisoformat s with
        | none => simp [FinancialRecord.from_dict, hdate, hiso] at hr
        | some dt =>
          cases hdesc : d.description with
          | none => simp [FinancialRecord.from_dict, hdate, hiso, hdesc] at hr
          | some dv =>
            cases hamt : d.amount with
            | none => simp [FinancialRecord.from_dict, hdate, hiso, hdesc, hamt] at hr
            | some av =>
              simp only [FinancialRecord.from_dict, hdate, hiso, hdesc, hamt] at hr
              have hrr := Except.ok.inj hr
              constructor
              · intro hdd
                rw [← hrr]
                simp [hdd]
              · intro hrt
                rw [← hrr]
                simp [hrt]

/-- C8 witness: the characterization applied to a mapping with no `date`
key, which fails, and to a mapping missing only `due_date` and
`record_type`, which defaults them. -/
theorem from_dict_error_characterization_witness :
    ∃ e, FinancialRecord.from_dict
        ⟨none, some (.str "x"), some (.num 1), none, none⟩ = .error e :=
  (from_dict_error_characterization _).1.mpr (Or.inl rfl)

theorem pySum_amounts (l : List FinancialRecord) (acc : ℚ)
    (h : ∀ r ∈ l, ∃ q : ℚ, r.amount = .num q) :
    pySum (l.map FinancialRecord.amount) acc = .ok (acc + (l.map recNum).sum) := by
  induction l generalizing acc with
  | nil => simp [pySum]
  | cons r rs ih =>
    obtain ⟨q, hq⟩ := h r (List.mem_cons_self r rs)
    simp only [List.map_cons, hq, pySum, List.sum_cons]
    rw [ih _ (fun x hx => h x (List.mem_cons_of_mem r hx))]
    congr 1
    rw [recNum, hq]
    ring

theorem filter_sum_signed (l : List FinancialRecord)
    (h : ∀ r ∈ l, r.record_type = JVal.str "income" ∨
      r.record_type = JVal.str "expense") :
    ((l.filter (fun p => p.record_type = JVal.str "income")).map recNum).sum -
      ((l.filter (fun p => p.record_type = JVal.str "expense")).map recNum).sum =
    (l.map (fun r => if r.record_type = JVal.str "income" then recNum r
      else - recNum r)).sum := by
  induction l with
  | nil => simp
  | cons r rs ih =>
    have hrs := fun x hx => h x (List.mem_cons_of_mem r hx)
    rcases h r (List.mem_cons_self r rs) with hk | hk
    · simp [List.filter_cons, hk]
      linear_combination ih hrs
    · simp [List.filter_cons, hk]
      linear_combination ih hrs

theorem recNum_to_dict (r : FinancialRecord) :
    numAmount (FinancialRecord.to_dict r) = recNum r := by
  cases hr : r.amount <;> simp [numAmount, recNum, FinancialRecord.to_dict, hr]

/-- C10: when every active record's kind is `"income"` or `"expense"` (and
amounts are numeric), the `net_balance` of `calculate_balance` equals
`net_total` of the serialized records; but on a store holding a record of
any other kind the two differ — `calculate_balance` counts it in neither
total, while `net_total` subtracts its amount. -/
theorem calculate_balance_refines_net_total :
    (∀ (t : FinanceTracker),
      (∀ r ∈ t.plans, (∃ q : ℚ, r.amount = .num q) ∧
        (r.record_type = JVal.str "income" ∨ r.record_type = JVal.str "expense")) →
      ∃ b, t.calculate_balance = .ok b ∧
        net_total (t.plans.map FinancialRecord.to_dict) = .ok b.net_balance) ∧
    (∃ t : FinanceTracker, ∃ b, t.calculate_balance = .ok b ∧
      net_total (t.plans.map FinancialRecord.to_dict) ≠ .ok b.net_balance) := by
  constructor
  · intro t h
    have hnum : ∀ r ∈ t.plans, ∃ q : ℚ, r.amount = .num q := fun r hr => (h r hr).1
    have hkind : ∀ r ∈ t.plans, r.record_type = JVal.str "income" ∨
        r.record_type = JVal.str "expense" := fun r hr => (h r hr).2
    have h1 : ∀ r ∈ t.plans.filter (fun p => p.record_type = JVal.str "income"),
        ∃ q : ℚ, r.amount = .num q := fun r hr => hnum r (List.mem_of_mem_filter hr)
    have h2 : ∀ r ∈ t.plans.filter (fun p => p.record_type = JVal.str "expense"),
        ∃ q : ℚ, r.amount = .num q := fun r hr => hnum r (List.mem_of_mem_filter hr)
    refine ⟨⟨((t.plans.filter (fun p => p.record_type = JVal.str "income")).map recNum).sum,
            ((t.plans.filter (fun p => p.record_type = JVal.str "expense")).map recNum).sum,
            ((t.plans.filter (fun p => p.record_type = JVal.str "income")).map recNum).sum -
              ((t.plans.filter (fun p => p.record_type = JVal.str "expense")).map recNum).sum⟩,
          ?hcb, ?hnt⟩
    · unfold FinanceTracker.calculate_balance
      rw [pySum_amounts _ 0 h1, pySum_amounts _ 0 h2]
      simp
    · have hdict : ∀ r ∈ t.plans.map FinancialRecord.to_dict,
          (∃ q : ℚ, r.amount = some (.num q)) ∨ r.amount = none := by
        intro r hr
        obtain ⟨x, hx, rfl⟩ := List.mem_map.mp hr
        obtain ⟨q, hq⟩ := hnum x hx
        exact Or.inl ⟨q, by simp [FinancialRecord.to_dict, hq]⟩
      have key : (List.map (fun r =>
          if r.record_type = some (JVal.str "income") then numAmount r
          else - numAmount r) (t.plans.map FinancialRecord.to_dict)).sum =
          ((t.plans.filter (fun p => p.record_type = JVal.str "income")).map recNum).sum -
            ((t.plans.filter (fun p => p.record_type = JVal.str "expense")).map recNum).sum := by
        rw [filter_sum_signed t.plans hkind, List.map_map]
        congr 1
        apply List.map_congr_left
        intro r hr
        have hiff : (FinancialRecord.to_dict r).record_type = some (JVal.str "income") ↔
            r.record_type = JVal.str "income" := by
          simp [FinancialRecord.to_dict]
        simp only [Function.comp_apply, recNum_to_dict]
        by_cases hk : r.record_type = JVal.str "income"
        · rw [if_pos (hiff.mpr hk), if_pos hk]
        · rw [if_neg (fun hc => hk (hiff.mp hc)), if_neg hk]
      rw [net_total_numeric _ hdict, key]
  · refine ⟨⟨[⟨⟨2024, 1, 1⟩, .str "tip", .num 5, .null, .str "other"⟩], []⟩,
      ⟨0, 0, 0⟩, ?hcb2, ?hdiff⟩
    · unfold FinanceTracker.calculate_balance
      simp [pySum]
    · intro hcontra
      have h5 : net_total ((FinanceTracker.mk
          [⟨⟨2024, 1, 1⟩, .str "tip", .num 5, .null, .str "other"⟩] []).plans.map
            FinancialRecord.to_dict) = .ok (-5) := by
        simp [net_total, net_total_go, pyFloat, FinancialRecord.to_dict]
      rw [h5] at hcontra
      have h50 := Except.ok.inj hcontra
      norm_num at h50

/-- C10 witness: the equality applied to the concrete sample store (one
expense of 50 and one income of 500), whose net balance is 450. -/
theorem calculate_balance_refines_net_total_witness :
    ∃ b, sampleTracker.calculate_balance = .ok b ∧
      net_total (sampleTracker.plans.map FinancialRecord.to_dict) =
        .ok b.net_balance := by
  refine calculate_balance_refines_net_total.1 sampleTracker ?hyp
  intro r hr
  simp only [sampleTracker, List.mem_cons, List.not_mem_nil, or_false] at hr
  rcases hr with rfl | rfl
  · exact ⟨⟨50, rfl⟩, Or.inr rfl⟩
  · exact ⟨⟨500, rfl⟩, Or.inl rfl⟩

/-- The spec-side group sum: the total amount of the records of effective
kind `k`. -/
def sumOfKind (records : List RecordDict) (k : JVal) : ℚ :=
  ((records.filter (fun r => ekind r = k)).map numAmount).sum

theorem dictGet_dictSet_self (m : TotalsDict) (k : JVal) (v : ℚ) :
    dictGet (dictSet m k v) k = some v := by
  induction m with
  | nil => simp [dictSet, dictGet]
  | cons p rest ih =>
    by_cases hp : p.1 = k
    · simp [dictSet, dictGet, hp]
    · simp [dictSet, dictGet, hp, ih]

theorem dictGet_dictSet_other (m : TotalsDict) (k k' : JVal) (v : ℚ)
    (h : k' ≠ k) :
    dictGet (dictSet m k v) k' = dictGet m k' := by
  have hkk : ¬ (k = k') := fun hc => h hc.symm
  induction m with
  | nil => simp [dictSet, dictGet, hkk]
  | cons p rest ih =>
    obtain ⟨a, b⟩ := p
    by_cases hp : a = k
    · subst hp
      simp [dictSet, dictGet, hkk]
    · simp [dictSet, dictGet, hp, ih]

theorem total_by_type_go_spec (records : List RecordDict) (totals : TotalsDict)
    (h : ∀ r ∈ records, (∃ q : ℚ, r.amount = some (.num q)) ∨ r.amount = none) :
    ∃ m, total_by_type_go totals records = .ok m ∧
      ∀ k : JVal, dictGet m k =
        if (dictGet totals k).isSome || records.any (fun r => ekind r = k)
        then some ((dictGet totals k).getD 0 + sumOfKind records k) else none := by
  induction records generalizing totals with
  | nil =>
    refine ⟨totals, rfl, fun k => ?base⟩
    cases hk : dictGet totals k <;>
      simp [hk, sumOfKind]
  | cons r rs ih =>
    have hamt := pyFloat_numeric r (h r (List.mem_cons_self r rs))
    have hrs := fun x hx => h x (List.mem_cons_of_mem r hx)
    obtain ⟨m, hm, hlook⟩ :=
      ih (dictSet totals (ekind r) ((dictGet totals (ekind r)).getD 0 + numAmount r)) hrs
    refine ⟨m, ?hgo, ?hchar⟩
    · simp only [total_by_type_go, hamt]
      exact hm
    · intro k
      rw [hlook k]
      by_cases hk : k = ekind r
      · rw [hk, dictGet_dictSet_self]
        have hsum : sumOfKind (r :: rs) (ekind r) =
            numAmount r + sumOfKind rs (ekind r) := by
          simp [sumOfKind, List.filter_cons]
        simp [hsum, add_assoc]
      · have hke : ¬ (ekind r = k) := fun hc => hk hc.symm
        rw [dictGet_dictSet_other _ _ _ _ hk]
        have hsum : sumOfKind (r :: rs) k = sumOfKind rs k := by
          simp [sumOfKind, List.filter_cons, hke]
        have hany : (r :: rs).any (fun x => ekind x = k) =
            rs.any (fun x => ekind x = k) := by
          simp [List.any_cons, hke]
        rw [hsum, hany]

/-- C5: `total_by_type` maps each effective kind (a record with a missing
kind counts under `'expense'`) to the sum of the amounts of the records of
that kind, each sum starting at `0.0`; a kind is present in the result
exactly when some record has it; the empty input yields the empty mapping;
and incomes of `50` and `20` with an expense of `10` yield
`{income: 70.0, expense: 10.0}`. -/
theorem total_by_type_spec :
    (∀ (records : List RecordDict),
      (∀ r ∈ records, (∃ q : ℚ, r.amount = some (.num q)) ∨ r.amount = none) →
      ∃ m, total_by_type records = .ok m ∧
        ∀ k : JVal, dictGet m k =
          if records.any (fun r => ekind r = k)
          then some (sumOfKind records k) else none) ∧
    (∀ r : RecordDict, r.record_type = none → ekind r = .str "expense") ∧
    total_by_type [] = .ok [] ∧
    total_by_type [⟨none, none, some (.num 50), none, some (.str "income")⟩,
                   ⟨none, none, some (.num 20), none, some (.str "income")⟩,
                   ⟨none, none, some (.num 10), none, some (.str "expense")⟩] =
      .ok [(.str "income", 70), (.str "expense", 10)] := by
  refine ⟨fun records h => ?gen, fun r hr => by simp [ekind, hr], rfl, ?gex⟩
  · obtain ⟨m, hm, hlook⟩ := total_by_type_go_spec records [] h
    refine ⟨m, hm, fun k => ?hk⟩
    rw [hlook k]
    simp [dictGet]
  · simp [total_by_type, total_by_type_go, pyFloat, ekind, dictSet, dictGet]
    norm_num

/-- C5 witness: the characterization applied to a single record with no
`record_type` key, whose amount is grouped under `"expense"`. -/
theorem total_by_type_spec_witness :
    ∃ m, total_by_type [⟨none, none, some (.num 3), none, none⟩] = .ok m ∧
      dictGet m (.str "expense") = some 3 := by
  obtain ⟨m, hm, hlook⟩ := total_by_type_spec.1
    [⟨none, none, some (.num 3), none, none⟩]
    (by intro r hr; simp at hr; subst hr; exact Or.inl ⟨3, rfl⟩)
  refine ⟨m, hm, ?hval⟩
  have h := hlook (.str "expense")
  simpa [ekind, sumOfKind, numAmount] using h

theorem dueLe_trans : ∀ (a b c : FinancialRecord),
    dueLe a b = true → dueLe b c = true → dueLe a c = true := by
  intro a b c hab hbc
  simp only [dueLe, decide_eq_true_eq] at hab hbc ⊢
  exact le_trans hab hbc

theorem dueLe_total : ∀ (a b : FinancialRecord),
    (dueLe a b || dueLe b a) = true := by
  intro a b
  rcases le_total (dueKey a) (dueKey b) with hle | hle <;> simp [dueLe, hle]

/-- Sample expense record with a due date of `"2024-05-01"`. -/
def recC : FinancialRecord :=
  ⟨⟨2024, 1, 3⟩, .str "loan", .num 75, .str "2024-05-01", .str "expense"⟩

/-- Sample expense record with a due date of `"2024-01-10"`. -/
def recD : FinancialRecord :=
  ⟨⟨2024, 1, 4⟩, .str "bill", .num 20, .str "2024-01-10", .str "expense"⟩

/-- C6: on a store whose due dates are strings or `None`,
`view_upcoming_due_dates` returns exactly the records passing the
expense-with-truthy-due-date filter (a permutation of the filtered list,
and every returned record is an expense with a truthy due date), ordered
ascending by due date under lexicographic string comparison, and stably so:
for every key `s`, the returned records with due date `s` are exactly the
filtered records with due date `s` in their original relative order. -/
theorem upcoming_due_spec (t : FinanceTracker)
    (h : ∀ r ∈ t.plans, r.due_date = .null ∨ ∃ s : String, r.due_date = .str s) :
    List.Perm t.view_upcoming_due_dates (t.plans.filter upcomingFilter) ∧
    t.view_upcoming_due_dates.Pairwise (fun a b => dueKey a ≤ dueKey b) ∧
    (∀ r ∈ t.view_upcoming_due_dates,
      r.record_type = JVal.str "expense" ∧ truthy r.due_date = true) ∧
    (∀ s : String, t.view_upcoming_due_dates.filter (fun r => dueKey r = s) =
      (t.plans.filter upcomingFilter).filter (fun r => dueKey r = s)) := by
  have hview : t.view_upcoming_due_dates =
      (t.plans.filter upcomingFilter).mergeSort dueLe := rfl
  refine ⟨?gp, ?gs, ?gm, ?gst⟩
  case gp =>
    rw [hview]
    exact List.mergeSort_perm _ _
  case gs =>
    rw [hview]
    have hp := List.sorted_mergeSort dueLe_trans dueLe_total
      (t.plans.filter upcomingFilter)
    exact hp.imp (fun hab => by simpa [dueLe] using hab)
  case gm =>
    intro r hr
    rw [hview] at hr
    have hr2 := List.mem_mergeSort.mp hr
    have hr3 := (List.mem_filter.mp hr2).2
    simp only [upcomingFilter, Bool.and_eq_true, decide_eq_true_eq] at hr3
    exact hr3
  case gst =>
    intro s
    rw [hview]
    have hc1 : (List.filter (fun r => decide (dueKey r = s))
        (t.plans.filter upcomingFilter)).Pairwise (fun a b => dueLe a b = true) := by
      apply List.pairwise_of_forall_mem_list
      intro a ha b hb
      have ha2 := (List.mem_filter.mp ha).2
      have hb2 := (List.mem_filter.mp hb).2
      simp only [decide_eq_true_eq] at ha2 hb2
      simp [dueLe, ha2, hb2]
    have hc2 := List.filter_sublist (p := fun r => decide (dueKey r = s))
      (t.plans.filter upcomingFilter)
    have hc3 := List.sublist_mergeSort dueLe_trans dueLe_total hc1 hc2
    have hceq : (List.filter (fun r => decide (dueKey r = s))
        (t.plans.filter upcomingFilter)).filter (fun r => decide (dueKey r = s)) =
        List.filter (fun r => decide (dueKey r = s))
          (t.plans.filter upcomingFilter) := by
      apply List.filter_eq_self.mpr
      intro a ha
      exact (List.mem_filter.mp ha).2
    have hc5 := hc3.filter (fun r => decide (dueKey r = s))
    rw [hceq] at hc5
    have hperm := (List.mergeSort_perm (t.plans.filter upcomingFilter)
      dueLe).filter (fun r => decide (dueKey r = s))
    have hlen := hperm.length_eq
    exact (List.Sublist.eq_of_length hc5 hlen.symm).symm

/-- C6 witness: the filter/sort characterization applied to a concrete
store holding two dated expenses and an income. -/
theorem upcoming_due_spec_witness :
    List.Perm (FinanceTracker.view_upcoming_due_dates ⟨[recC, recD, recB], []⟩)
      (([recC, recD, recB] : List FinancialRecord).filter upcomingFilter) :=
  (upcoming_due_spec ⟨[recC, recD, recB], []⟩ (by
    intro r hr
    simp only [List.mem_cons, List.not_mem_nil, or_false] at hr
    rcases hr with rfl | rfl | rfl
    · exact Or.inr ⟨"2024-05-01", rfl⟩
    · exact Or.inr ⟨"2024-01-10", rfl⟩
    · exact Or.inl rfl)).1
